import Mathlib

/-!
# Verification of the literature-ingestion pipeline specification

This file gives a shallow embedding of the concurrent, rate-limited,
resumable literature-ingestion pipeline of the AI-Vision-Chatbot
repository, together with the two concrete source files that the claims
reference directly (`frontend/lib/api.ts` and
`backend/scripts/setup_api_keys.sh`).

The pipeline implementation (`production_rag_populator.py`) is not part of
the provided sources; only its documentation is.  The pipeline definitions
below are therefore modelled from the specification (each such definition
carries a doc comment starting `Modelled from the spec:`).  The run is
modelled as the single serialized trace of Progress Ledger operations that
the specification's worker loop produces (ledger updates are serialized
through one lock per §5 of the spec); interruption is modelled as cutting
that trace after an arbitrary number of ledger operations, which is the
granularity at which the spec's flush-and-resume semantics operates.
-/

namespace Pipeline

/-- Modelled from the spec: `RecordMetadata` (§3) — title, authors, journal,
publication date, optional full-text identifier (PMC id) and abstract for
one bibliographic record. -/
structure RecordMetadata where
  record_id : String
  title : String
  authors : String
  journal : String
  publication_date : String
  pmc_id : Option String
  abstract : String
deriving Repr, DecidableEq

/-- Modelled from the spec: `AssembledDocument` (§3, §4.5) — the merged
metadata + abstract + optional full text document handed to the Chunker. -/
structure AssembledDocument where
  record_id : String
  content : String
  query : String
  has_full_text : Bool
deriving Repr, DecidableEq

/-- Modelled from the spec: `Chunk` (§3, §4.6) — one bounded text window
with inherited metadata and its index in the chunk sequence. -/
structure Chunk where
  text : String
  record_id : String
  query : String
  has_full_text : Bool
  chunk_index : Nat
deriving Repr, DecidableEq

/-- Modelled from the spec: the Progress Ledger state (§3) — the four sets
(completed queries, downloaded record ids, indexed record ids, failed
record ids), persisted as one structured file.  Sets are represented as
lists compared by membership. -/
structure Ledger where
  completed_queries : List String
  downloaded_record_ids : List String
  indexed_record_ids : List String
  failed_record_ids : List String
deriving Repr, DecidableEq

/-- The empty ledger: the state loaded when no prior progress file exists. -/
def emptyLedger : Ledger :=
  { completed_queries := []
  , downloaded_record_ids := []
  , indexed_record_ids := []
  , failed_record_ids := [] }

/-- Modelled from the spec: a deterministic data source standing for the
external bibliographic API plus the vector store (§2, §6, §8's
"deterministic mock data source").  `search` returns the record ids of a
query, `fetchOk r` says whether metadata fetch succeeds for record `r`,
`metadataOf` is the (immutable) metadata, `fullTextOk f` whether full-text
retrieval of full-text id `f` succeeds, `fullTextOf` the extracted text,
and `indexOk r` whether the vector-store write for record `r` succeeds. -/
structure DataSource where
  search : String → List String
  fetchOk : String → Bool
  metadataOf : String → RecordMetadata
  fullTextOk : String → Bool
  fullTextOf : String → String
  indexOk : String → Bool

/-- Modelled from the spec: the individual Progress Ledger operations of
§4.8 (`record_downloaded`, `record_indexed`, `record_failed`,
`record_query_complete`) plus the `fetch_metadata` invocation of §4.3,
which is the event counted by the no-duplicate-fetch property. -/
inductive Op where
  | fetch (r : String)
  | record_downloaded (r : String)
  | record_indexed (r : String)
  | record_failed (r : String)
  | record_query_complete (q : String)
deriving Repr, DecidableEq

/-- Insert into a membership-based set represented as a list. -/
def insertS (x : String) (l : List String) : List String :=
  if x ∈ l then l else x :: l

/-- Modelled from the spec: the effect of one synchronized
read-modify-write ledger operation (§4.8).  `fetch` performs no ledger
mutation. -/
def applyOp (L : Ledger) : Op → Ledger
  | .fetch _ => L
  | .record_downloaded r =>
      { L with downloaded_record_ids := insertS r L.downloaded_record_ids }
  | .record_indexed r =>
      { L with indexed_record_ids := insertS r L.indexed_record_ids }
  | .record_failed r =>
      { L with failed_record_ids := insertS r L.failed_record_ids }
  | .record_query_complete q =>
      { L with completed_queries := insertS q L.completed_queries }

/-- Apply a list of ledger operations in order. -/
def applyOps (L : Ledger) (ops : List Op) : Ledger :=
  ops.foldl applyOp L

/-- Modelled from the spec: the ledger operations a Worker performs for one
record (§4.3, §4.7, §4.9): skip when the record is already in
`downloaded_record_ids`/`indexed_record_ids` (§4.10, §3 invariants);
otherwise fetch metadata — a failed fetch records the record as failed
(record-scoped failure, §4.9) — then record the download, then index; a
failed index write records the record as failed (§4.7).  Full-text
retrieval failure is non-fatal (§4.4) and produces no ledger operation. -/
def recordTrace (src : DataSource) (L : Ledger) (r : String) : List Op :=
  if r ∈ L.downloaded_record_ids ∨ r ∈ L.indexed_record_ids then []
  else if src.fetchOk r then
    if src.indexOk r then
      [.fetch r, .record_downloaded r, .record_indexed r]
    else
      [.fetch r, .record_downloaded r, .record_failed r]
  else
    [.fetch r, .record_failed r]

/-- Ledger operations for a list of records, each record consulting the
ledger state left by its predecessors. -/
def recordsTrace (src : DataSource) : Ledger → List String → List Op
  | _, [] => []
  | L, r :: rs =>
      let t := recordTrace src L r
      t ++ recordsTrace src (applyOps L t) rs

/-- Modelled from the spec: the ledger operations for one query (§4.9,
§4.10): a query already in `completed_queries` is skipped on startup;
otherwise all its records are processed and then the query is marked
complete. -/
def queryTrace (src : DataSource) (L : Ledger) (q : String) : List Op :=
  if q ∈ L.completed_queries then []
  else recordsTrace src L (src.search q) ++ [.record_query_complete q]

/-- Modelled from the spec: the full serialized trace of ledger operations
of a run of the Coordinator over a query list (§4.10, §5). -/
def pipelineTrace (src : DataSource) : Ledger → List String → List Op
  | _, [] => []
  | L, q :: qs =>
      let t := queryTrace src L q
      t ++ pipelineTrace src (applyOps L t) qs

/-- The ledger state after processing one record. -/
def runRecord (src : DataSource) (L : Ledger) (r : String) : Ledger :=
  applyOps L (recordTrace src L r)

/-- The ledger state after processing a list of records. -/
def runRecords (src : DataSource) (L : Ledger) (rs : List String) : Ledger :=
  applyOps L (recordsTrace src L rs)

/-- The ledger state after processing one query. -/
def runQuery (src : DataSource) (L : Ledger) (q : String) : Ledger :=
  applyOps L (queryTrace src L q)

/-- Modelled from the spec: the final ledger state of a run of the whole
pipeline from ledger state `L` over the query list `qs` (§4.10). -/
def runPipeline (src : DataSource) (L : Ledger) (qs : List String) : Ledger :=
  applyOps L (pipelineTrace src L qs)

/-- The ledger state reached when a run from `L` is interrupted after `n`
ledger operations: the prefix of the run's trace is applied to `L`. -/
def interruptedAt (src : DataSource) (L : Ledger) (qs : List String)
    (n : Nat) : Ledger :=
  applyOps L ((pipelineTrace src L qs).take n)

/-- Two ledgers hold the same four sets (membership-wise). -/
def ledgerEquiv (A B : Ledger) : Prop :=
  (∀ q, q ∈ A.completed_queries ↔ q ∈ B.completed_queries) ∧
  (∀ r, r ∈ A.downloaded_record_ids ↔ r ∈ B.downloaded_record_ids) ∧
  (∀ r, r ∈ A.indexed_record_ids ↔ r ∈ B.indexed_record_ids) ∧
  (∀ r, r ∈ A.failed_record_ids ↔ r ∈ B.failed_record_ids)

/-- One ledger state is componentwise contained in another. -/
def LedgerLE (A B : Ledger) : Prop :=
  (∀ q, q ∈ A.completed_queries → q ∈ B.completed_queries) ∧
  (∀ r, r ∈ A.downloaded_record_ids → r ∈ B.downloaded_record_ids) ∧
  (∀ r, r ∈ A.indexed_record_ids → r ∈ B.indexed_record_ids) ∧
  (∀ r, r ∈ A.failed_record_ids → r ∈ B.failed_record_ids)

/-- An op is admissible in ledger state `L`: a download is only recorded
after a successful fetch, an index only for an already-downloaded record,
and a query completion only once each of the query's records is terminal. -/
def GoodOp (src : DataSource) (L : Ledger) : Op → Prop
  | .fetch _ => True
  | .record_downloaded r => src.fetchOk r = true
  | .record_indexed r => r ∈ L.downloaded_record_ids
  | .record_failed _ => True
  | .record_query_complete q => ∀ r, r ∈ src.search q →
      (src.fetchOk r = true → r ∈ L.downloaded_record_ids) ∧
      (src.fetchOk r = false → r ∈ L.failed_record_ids)

/-- Every op of the list is admissible in the state it is applied to. -/
def OpsOK (src : DataSource) : Ledger → List Op → Prop
  | _, [] => True
  | L, o :: ops => GoodOp src L o ∧ OpsOK src (applyOp L o) ops

/-- The ledger invariants that hold in every state of a run:
`indexed ⊆ downloaded`, and every downloaded record had a successful
fetch. -/
def RecInv (src : DataSource) (L : Ledger) : Prop :=
  (∀ x, x ∈ L.indexed_record_ids → x ∈ L.downloaded_record_ids) ∧
  (∀ x, x ∈ L.downloaded_record_ids → src.fetchOk x = true)

/-- The completion-accounting invariant: every completed query has all its
records terminal (downloaded on successful fetch, failed otherwise). -/
def AccInv (src : DataSource) (L : Ledger) : Prop :=
  ∀ q, q ∈ L.completed_queries → ∀ r, r ∈ src.search q →
    (src.fetchOk r = true → r ∈ L.downloaded_record_ids) ∧
    (src.fetchOk r = false → r ∈ L.failed_record_ids)

/-- The number of `fetch_metadata` invocations for record `r` in a trace. -/
def fetchCount (r : String) : List Op → Nat
  | [] => 0
  | o :: ops => (if o = Op.fetch r then 1 else 0) + fetchCount r ops

/-! ### Rate limiter -/

/-- Modelled from the spec: the completion time of one `acquire()` call
(§4.1).  The caller arrives at time `now`; `acquire()` sleeps for
`max 0 (interval - elapsed_since_last_acquire)` where
`elapsed_since_last_acquire = now - last`, and the call completes when the
sleep ends.  The completion time is recorded as the new `last_acquire`. -/
def acquireCompletion (interval last now : ℚ) : ℚ :=
  now + max 0 (interval - (now - last))

/-- Modelled from the spec: the completion times of a sequence of
`acquire()` calls issued sequentially by one Worker (§4.1, §5): entry `i`
of `gaps` is the delay between the completion of call `i-1` (the start
time `now`, for the first call) and the arrival of call `i`; each
completion becomes the recorded `last_acquire` for the next call. -/
def acquireTimes (interval : ℚ) : ℚ → ℚ → List ℚ → List ℚ
  | _, _, [] => []
  | now, last, g :: gs =>
      acquireCompletion interval last (now + g) ::
        acquireTimes interval (acquireCompletion interval last (now + g))
          (acquireCompletion interval last (now + g)) gs

/-- A list of times with consecutive entries at least `interval` apart. -/
def Spaced (interval : ℚ) : List ℚ → Prop
  | [] => True
  | [_] => True
  | x :: y :: t => x + interval ≤ y ∧ Spaced interval (y :: t)

/-- The number of entries of `l` falling in the 1-second window
`[a, a + 1)`, counted by position. -/
def windowCount (l : List ℚ) (a : ℚ) : Nat :=
  ((List.range l.length).filter
    (fun i => decide (a ≤ l.getD i 0) && decide (l.getD i 0 < a + 1))).length

/-! ### Round-robin assignment -/

/-- Modelled from the spec: round-robin assignment (§4.10) — the query at
position `i` of the query list is handled by the credential at position
`i mod K` of a credential pool of size `K`. -/
def assignedCredential (i K : Nat) : Nat := i % K

/-- The number of query positions among `0..Q-1` that round-robin assigns
to credential `k` out of `K` credentials. -/
def assignedCount (Q K k : Nat) : Nat :=
  ((List.range Q).filter (fun i => decide (assignedCredential i K = k))).length

/-! ### Chunker and Document Assembler -/

/-- Modelled from the spec: chunk size of the text splitter
(1,000 characters per the documented RecursiveCharacterTextSplitter
settings). -/
def chunkSize : Nat := 1000

/-- Modelled from the spec: chunk overlap of the text splitter
(200 characters). -/
def chunkOverlap : Nat := 200

/-- Distance between the starts of successive chunks. -/
def chunkStep : Nat := chunkSize - chunkOverlap

/-- Number of overlapping windows covering `n` characters. -/
def numChunks (n : Nat) : Nat :=
  if n ≤ chunkSize then 1
  else 1 + (n - chunkSize + chunkStep - 1) / chunkStep

/-- Modelled from the spec: the Chunker (§4.6) — splits an assembled
document's content into overlapping fixed-size windows, producing chunks
with inherited metadata and their index.  A pure function of the
document. -/
def chunk (d : AssembledDocument) : List Chunk :=
  (List.range (numChunks d.content.length)).map (fun i =>
    { text := String.mk ((d.content.toList.drop (i * chunkStep)).take chunkSize)
    , record_id := d.record_id
    , query := d.query
    , has_full_text := d.has_full_text
    , chunk_index := i })

/-- Modelled from the spec: the Full-Text Retriever (§4.4) — only attempts
retrieval when the full-text identifier is present; any failure yields
`none` (non-fatal, falls back to abstract-only). -/
def maybe_fetch_full_text (src : DataSource) (md : RecordMetadata) :
    Option String :=
  match md.pmc_id with
  | none => none
  | some fid => if src.fullTextOk fid then some (src.fullTextOf fid) else none

/-- Modelled from the spec: the Document Assembler (§4.5) — pure merge of
title, then abstract, then (if present) a full-text section;
`has_full_text` records whether full text was included. -/
def assemble (md : RecordMetadata) (full_text : Option String) (q : String) :
    AssembledDocument :=
  { record_id := md.record_id
  , content := md.title ++ "\n" ++ md.abstract ++
      (match full_text with
       | some t => "\n\nFull Text:\n" ++ t
       | none => "")
  , query := q
  , has_full_text := full_text.isSome }

/-- The document the pipeline assembles (and indexes) for record `r`
discovered under query `q`. -/
def indexedDocFor (src : DataSource) (q r : String) : AssembledDocument :=
  assemble (src.metadataOf r) (maybe_fetch_full_text src (src.metadataOf r)) q

/-! ### A small concrete deterministic data source used for witnesses -/

/-- A concrete deterministic data source: two queries; record `r3` fails
its metadata fetch; record `r2` has a full-text id whose retrieval fails;
all index writes succeed. -/
def demoSrc : DataSource :=
  { search := fun q =>
      if q = "q1" then ["r1", "r2"] else if q = "q2" then ["r2", "r3"] else []
  , fetchOk := fun r => r != "r3"
  , metadataOf := fun r =>
      { record_id := r
      , title := "Title " ++ r
      , authors := "A. Author"
      , journal := "J. Vision"
      , publication_date := "2024"
      , pmc_id := if r = "r2" then some "77" else none
      , abstract := "Abstract " ++ r }
  , fullTextOk := fun _ => false
  , fullTextOf := fun _ => "full text"
  , indexOk := fun _ => true }

end Pipeline

namespace Frontend

/-- The browser state touched by the axios response interceptor of
`frontend/lib/api.ts`: the `token` and `user` localStorage entries and
`window.location.href`. -/
structure BrowserState where
  token : Option String
  user : Option String
  href : String
deriving Repr, DecidableEq

/-- An axios error as observed by the response interceptor:
`error.response?.status`, which is absent when no response was received. -/
structure AxiosError where
  responseStatus : Option Nat
deriving Repr, DecidableEq

/-- The fulfilled handler of `api.interceptors.response.use`
(`frontend/lib/api.ts`): `(response) => response`, the response passes
through unchanged. -/
def interceptorFulfilled {Response : Type} (response : Response) : Response :=
  response

/-- The rejection handler of `api.interceptors.response.use`
(`frontend/lib/api.ts`): when `error.response?.status === 401` it removes
the `token` and `user` localStorage entries and sets
`window.location.href = '/'`; in every case it returns
`Promise.reject(error)` with the same error. -/
def interceptorRejected (s : BrowserState) (e : AxiosError) :
    BrowserState × Except AxiosError Unit :=
  if e.responseStatus = some 401 then
    ({ token := none, user := none, href := "/" }, Except.error e)
  else
    (s, Except.error e)

end Frontend

namespace Scripts

/-- The environment variables exported by
`backend/scripts/setup_api_keys.sh`: its loop runs `i` over `1..5`,
reading and exporting `PUBMED_API_KEY_$i` and `PUBMED_EMAIL_$i` on each
iteration. -/
def setup_api_keys_exports : List String :=
  (List.range 5).flatMap (fun i =>
    ["PUBMED_API_KEY_" ++ toString (i + 1), "PUBMED_EMAIL_" ++ toString (i + 1)])

end Scripts

namespace Pipeline

/-! ### Basic lemmas about ledger operations -/

lemma mem_insertS {x y : String} {l : List String} :
    y ∈ insertS x l ↔ y = x ∨ y ∈ l := by
  unfold insertS
  by_cases h : x ∈ l
  · rw [if_pos h]
    constructor
    · intro hy; exact Or.inr hy
    · intro hy
      rcases hy with rfl | hy
      · exact h
      · exact hy
  · rw [if_neg h, List.mem_cons]

lemma mem_insertS_self {x : String} {l : List String} : x ∈ insertS x l :=
  mem_insertS.mpr (Or.inl rfl)

lemma mem_insertS_of_mem {x y : String} {l : List String} (h : y ∈ l) :
    y ∈ insertS x l :=
  mem_insertS.mpr (Or.inr h)

lemma applyOps_nil (L : Ledger) : applyOps L [] = L := rfl

lemma applyOps_cons (L : Ledger) (o : Op) (ops : List Op) :
    applyOps L (o :: ops) = applyOps (applyOp L o) ops := rfl

lemma applyOps_append (L : Ledger) (a b : List Op) :
    applyOps L (a ++ b) = applyOps (applyOps L a) b := by
  simp [applyOps, List.foldl_append]

lemma applyOps_take_append (L : Ledger) (a b : List Op) (n : Nat) :
    applyOps L ((a ++ b).take n) =
      applyOps (applyOps L (a.take n)) (b.take (n - a.length)) := by
  rw [List.take_append_eq_append_take, applyOps_append]

lemma take_of_le_length {α : Type} {l : List α} {n : Nat} (h : l.length ≤ n) :
    l.take n = l :=
  List.take_of_length_le h

lemma ledgerLE_refl (L : Ledger) : LedgerLE L L :=
  ⟨fun _ h => h, fun _ h => h, fun _ h => h, fun _ h => h⟩

lemma ledgerLE_trans {A B C : Ledger} (h1 : LedgerLE A B) (h2 : LedgerLE B C) :
    LedgerLE A C :=
  ⟨fun q h => h2.1 q (h1.1 q h),
   fun r h => h2.2.1 r (h1.2.1 r h),
   fun r h => h2.2.2.1 r (h1.2.2.1 r h),
   fun r h => h2.2.2.2 r (h1.2.2.2 r h)⟩

lemma applyOp_le (L : Ledger) (o : Op) : LedgerLE L (applyOp L o) := by
  cases o with
  | fetch r => exact ledgerLE_refl L
  | record_downloaded r =>
    exact ⟨fun _ h => h, fun _ h => mem_insertS_of_mem h, fun _ h => h,
      fun _ h => h⟩
  | record_indexed r =>
    exact ⟨fun _ h => h, fun _ h => h, fun _ h => mem_insertS_of_mem h,
      fun _ h => h⟩
  | record_failed r =>
    exact ⟨fun _ h => h, fun _ h => h, fun _ h => h,
      fun _ h => mem_insertS_of_mem h⟩
  | record_query_complete q =>
    exact ⟨fun _ h => mem_insertS_of_mem h, fun _ h => h, fun _ h => h,
      fun _ h => h⟩

lemma applyOps_le (L : Ledger) (ops : List Op) : LedgerLE L (applyOps L ops) := by
  induction ops generalizing L with
  | nil => exact ledgerLE_refl L
  | cons o ops ih =>
    rw [applyOps_cons]
    exact ledgerLE_trans (applyOp_le L o) (ih (applyOp L o))

/-! ### The four shapes of one record's processing -/

lemma runRecord_skip (src : DataSource) {L : Ledger} {r : String}
    (h : r ∈ L.downloaded_record_ids ∨ r ∈ L.indexed_record_ids) :
    runRecord src L r = L := by
  unfold runRecord recordTrace
  rw [if_pos h]
  rfl

lemma runRecord_fetch_fail (src : DataSource) {L : Ledger} {r : String}
    (h : ¬(r ∈ L.downloaded_record_ids ∨ r ∈ L.indexed_record_ids))
    (hf : src.fetchOk r = false) :
    runRecord src L r =
      { L with failed_record_ids := insertS r L.failed_record_ids } := by
  unfold runRecord recordTrace
  rw [if_neg h]
  simp [hf, applyOps, applyOp]

lemma runRecord_ok (src : DataSource) {L : Ledger} {r : String}
    (h : ¬(r ∈ L.downloaded_record_ids ∨ r ∈ L.indexed_record_ids))
    (hf : src.fetchOk r = true) (hi : src.indexOk r = true) :
    runRecord src L r =
      { L with downloaded_record_ids := insertS r L.downloaded_record_ids
             , indexed_record_ids := insertS r L.indexed_record_ids } := by
  unfold runRecord recordTrace
  rw [if_neg h]
  simp [hf, hi, applyOps, applyOp]

lemma runRecord_index_fail (src : DataSource) {L : Ledger} {r : String}
    (h : ¬(r ∈ L.downloaded_record_ids ∨ r ∈ L.indexed_record_ids))
    (hf : src.fetchOk r = true) (hi : src.indexOk r = false) :
    runRecord src L r =
      { L with downloaded_record_ids := insertS r L.downloaded_record_ids
             , failed_record_ids := insertS r L.failed_record_ids } := by
  unfold runRecord recordTrace
  rw [if_neg h]
  simp [hf, hi, applyOps, applyOp]

/-! ### Unfolding lemmas for the run -/

lemma runRecords_nil (src : DataSource) (L : Ledger) :
    runRecords src L [] = L := rfl

lemma recordsTrace_cons (src : DataSource) (L : Ledger) (r : String)
    (rs : List String) :
    recordsTrace src L (r :: rs) =
      recordTrace src L r ++ recordsTrace src (runRecord src L r) rs := rfl

lemma runRecords_cons (src : DataSource) (L : Ledger) (r : String)
    (rs : List String) :
    runRecords src L (r :: rs) = runRecords src (runRecord src L r) rs := by
  unfold runRecords
  rw [recordsTrace_cons, applyOps_append]
  rfl

lemma runQuery_skip (src : DataSource) {L : Ledger} {q : String}
    (h : q ∈ L.completed_queries) : runQuery src L q = L := by
  unfold runQuery queryTrace
  rw [if_pos h]
  rfl

lemma runQuery_proc (src : DataSource) {L : Ledger} {q : String}
    (h : q ∉ L.completed_queries) :
    runQuery src L q =
      applyOp (runRecords src L (src.search q)) (.record_query_complete q) := by
  unfold runQuery queryTrace
  rw [if_neg h, applyOps_append]
  rfl

lemma runPipeline_nil (src : DataSource) (L : Ledger) :
    runPipeline src L [] = L := rfl

lemma pipelineTrace_cons (src : DataSource) (L : Ledger) (q : String)
    (qs : List String) :
    pipelineTrace src L (q :: qs) =
      queryTrace src L q ++ pipelineTrace src (runQuery src L q) qs := rfl

lemma runPipeline_cons (src : DataSource) (L : Ledger) (q : String)
    (qs : List String) :
    runPipeline src L (q :: qs) = runPipeline src (runQuery src L q) qs := by
  unfold runPipeline
  rw [pipelineTrace_cons, applyOps_append]
  rfl

/-! ### Membership characterization of record processing -/

lemma completed_runRecords (src : DataSource) (rs : List String) :
    ∀ L : Ledger,
      (runRecords src L rs).completed_queries = L.completed_queries := by
  induction rs with
  | nil => intro L; rfl
  | cons r rs ih =>
    intro L
    rw [runRecords_cons, ih]
    by_cases hskip : r ∈ L.downloaded_record_ids ∨ r ∈ L.indexed_record_ids
    · rw [runRecord_skip src hskip]
    · push_neg at hskip
      cases hf : src.fetchOk r with
      | false => rw [runRecord_fetch_fail src (not_or.mpr hskip) hf]
      | true =>
        cases hidx : src.indexOk r with
        | true => rw [runRecord_ok src (not_or.mpr hskip) hf hidx]
        | false => rw [runRecord_index_fail src (not_or.mpr hskip) hf hidx]

lemma dl_runRecords (src : DataSource) (rs : List String) :
    ∀ (L : Ledger) (x : String),
      x ∈ (runRecords src L rs).downloaded_record_ids ↔
        x ∈ L.downloaded_record_ids ∨
          (x ∈ rs ∧ src.fetchOk x = true ∧ x ∉ L.downloaded_record_ids ∧
            x ∉ L.indexed_record_ids) := by
  induction rs with
  | nil => intro L x; simp [runRecords_nil]
  | cons r rs ih =>
    intro L x
    rw [runRecords_cons, ih]
    by_cases hskip : r ∈ L.downloaded_record_ids ∨ r ∈ L.indexed_record_ids
    · rw [runRecord_skip src hskip]
      constructor
      · rintro (h | ⟨h1, h2, h3, h4⟩)
        · exact Or.inl h
        · exact Or.inr ⟨List.mem_cons_of_mem _ h1, h2, h3, h4⟩
      · rintro (h | ⟨h1, h2, h3, h4⟩)
        · exact Or.inl h
        · rcases List.mem_cons.mp h1 with rfl | h1
          · exact absurd hskip (not_or.mpr ⟨h3, h4⟩)
          · exact Or.inr ⟨h1, h2, h3, h4⟩
    · push_neg at hskip
      obtain ⟨hd, hi⟩ := hskip
      cases hf : src.fetchOk r with
      | false =>
        rw [runRecord_fetch_fail src (not_or.mpr ⟨hd, hi⟩) hf]
        constructor
        · rintro (h | ⟨h1, h2, h3, h4⟩)
          · exact Or.inl h
          · exact Or.inr ⟨List.mem_cons_of_mem _ h1, h2, h3, h4⟩
        · rintro (h | ⟨h1, h2, h3, h4⟩)
          · exact Or.inl h
          · rcases List.mem_cons.mp h1 with rfl | h1
            · rw [hf] at h2; exact absurd h2 (by simp)
            · exact Or.inr ⟨h1, h2, h3, h4⟩
      | true =>
        cases hidx : src.indexOk r with
        | true =>
          rw [runRecord_ok src (not_or.mpr ⟨hd, hi⟩) hf hidx]
          constructor
          · rintro (h | ⟨h1, h2, h3, h4⟩)
            · rcases mem_insertS.mp h with rfl | h
              · exact Or.inr ⟨List.mem_cons_self _ _, hf, hd, hi⟩
              · exact Or.inl h
            · exact Or.inr ⟨List.mem_cons_of_mem _ h1, h2,
                fun hc => h3 (mem_insertS_of_mem hc),
                fun hc => h4 (mem_insertS_of_mem hc)⟩
          · rintro (h | ⟨h1, h2, h3, h4⟩)
            · exact Or.inl (mem_insertS_of_mem h)
            · rcases List.mem_cons.mp h1 with rfl | h1
              · exact Or.inl mem_insertS_self
              · by_cases hx : x = r
                · subst hx; exact Or.inl mem_insertS_self
                · refine Or.inr ⟨h1, h2, fun hc => ?_, fun hc => ?_⟩
                  · rcases mem_insertS.mp hc with h' | h'
                    · exact hx h'
                    · exact h3 h'
                  · rcases mem_insertS.mp hc with h' | h'
                    · exact hx h'
                    · exact h4 h'
        | false =>
          rw [runRecord_index_fail src (not_or.mpr ⟨hd, hi⟩) hf hidx]
          constructor
          · rintro (h | ⟨h1, h2, h3, h4⟩)
            · rcases mem_insertS.mp h with rfl | h
              · exact Or.inr ⟨List.mem_cons_self _ _, hf, hd, hi⟩
              · exact Or.inl h
            · exact Or.inr ⟨List.mem_cons_of_mem _ h1, h2,
                fun hc => h3 (mem_insertS_of_mem hc), h4⟩
          · rintro (h | ⟨h1, h2, h3, h4⟩)
            · exact Or.inl (mem_insertS_of_mem h)
            · rcases List.mem_cons.mp h1 with rfl | h1
              · exact Or.inl mem_insertS_self
              · by_cases hx : x = r
                · subst hx; exact Or.inl mem_insertS_self
                · refine Or.inr ⟨h1, h2, fun hc => ?_, h4⟩
                  rcases mem_insertS.mp hc with h' | h'
                  · exact hx h'
                  · exact h3 h'

lemma ix_runRecords (src : DataSource) (rs : List String) :
    ∀ (L : Ledger) (x : String),
      x ∈ (runRecords src L rs).indexed_record_ids ↔
        x ∈ L.indexed_record_ids ∨
          (x ∈ rs ∧ src.fetchOk x = true ∧ src.indexOk x = true ∧
            x ∉ L.downloaded_record_ids ∧ x ∉ L.indexed_record_ids) := by
  induction rs with
  | nil => intro L x; simp [runRecords_nil]
  | cons r rs ih =>
    intro L x
    rw [runRecords_cons, ih]
    by_cases hskip : r ∈ L.downloaded_record_ids ∨ r ∈ L.indexed_record_ids
    · rw [runRecord_skip src hskip]
      constructor
      · rintro (h | ⟨h1, h2, h3, h4, h5⟩)
        · exact Or.inl h
        · exact Or.inr ⟨List.mem_cons_of_mem _ h1, h2, h3, h4, h5⟩
      · rintro (h | ⟨h1, h2, h3, h4, h5⟩)
        · exact Or.inl h
        · rcases List.mem_cons.mp h1 with rfl | h1
          · exact absurd hskip (not_or.mpr ⟨h4, h5⟩)
          · exact Or.inr ⟨h1, h2, h3, h4, h5⟩
    · push_neg at hskip
      obtain ⟨hd, hi⟩ := hskip
      cases hf : src.fetchOk r with
      | false =>
        rw [runRecord_fetch_fail src (not_or.mpr ⟨hd, hi⟩) hf]
        constructor
        · rintro (h | ⟨h1, h2, h3, h4, h5⟩)
          · exact Or.inl h
          · exact Or.inr ⟨List.mem_cons_of_mem _ h1, h2, h3, h4, h5⟩
        · rintro (h | ⟨h1, h2, h3, h4, h5⟩)
          · exact Or.inl h
          · rcases List.mem_cons.mp h1 with rfl | h1
            · rw [hf] at h2; exact absurd h2 (by simp)
            · exact Or.inr ⟨h1, h2, h3, h4, h5⟩
      | true =>
        cases hidx : src.indexOk r with
        | true =>
          rw [runRecord_ok src (not_or.mpr ⟨hd, hi⟩) hf hidx]
          constructor
          · rintro (h | ⟨h1, h2, h3, h4, h5⟩)
            · rcases mem_insertS.mp h with rfl | h
              · exact Or.inr ⟨List.mem_cons_self _ _, hf, hidx, hd, hi⟩
              · exact Or.inl h
            · exact Or.inr ⟨List.mem_cons_of_mem _ h1, h2, h3,
                fun hc => h4 (mem_insertS_of_mem hc),
                fun hc => h5 (mem_insertS_of_mem hc)⟩
          · rintro (h | ⟨h1, h2, h3, h4, h5⟩)
            · exact Or.inl (mem_insertS_of_mem h)
            · rcases List.mem_cons.mp h1 with rfl | h1
              · exact Or.inl mem_insertS_self
              · by_cases hx : x = r
                · subst hx; exact Or.inl mem_insertS_self
                · refine Or.inr ⟨h1, h2, h3, fun hc => ?_, fun hc => ?_⟩
                  · rcases mem_insertS.mp hc with h' | h'
                    · exact hx h'
                    · exact h4 h'
                  · rcases mem_insertS.mp hc with h' | h'
                    · exact hx h'
                    · exact h5 h'
        | false =>
          rw [runRecord_index_fail src (not_or.mpr ⟨hd, hi⟩) hf hidx]
          constructor
          · rintro (h | ⟨h1, h2, h3, h4, h5⟩)
            · exact Or.inl h
            · exact Or.inr ⟨List.mem_cons_of_mem _ h1, h2, h3,
                fun hc => h4 (mem_insertS_of_mem hc), h5⟩
          · rintro (h | ⟨h1, h2, h3, h4, h5⟩)
            · exact Or.inl h
            · rcases List.mem_cons.mp h1 with rfl | h1
              · rw [hidx] at h3; exact absurd h3 (by simp)
              · by_cases hx : x = r
                · subst hx; rw [hidx] at h3; exact absurd h3 (by simp)
                · refine Or.inr ⟨h1, h2, h3, fun hc => ?_, h5⟩
                  rcases mem_insertS.mp hc with h' | h'
                  · exact hx h'
                  · exact h4 h'

lemma fl_runRecords (src : DataSource) (rs : List String) :
    ∀ (L : Ledger) (x : String),
      x ∈ (runRecords src L rs).failed_record_ids ↔
        x ∈ L.failed_record_ids ∨
          (x ∈ rs ∧ x ∉ L.downloaded_record_ids ∧ x ∉ L.indexed_record_ids ∧
            (src.fetchOk x = false ∨ src.indexOk x = false)) := by
  induction rs with
  | nil => intro L x; simp [runRecords_nil]
  | cons r rs ih =>
    intro L x
    rw [runRecords_cons, ih]
    by_cases hskip : r ∈ L.downloaded_record_ids ∨ r ∈ L.indexed_record_ids
    · rw [runRecord_skip src hskip]
      constructor
      · rintro (h | ⟨h1, h2, h3, h4⟩)
        · exact Or.inl h
        · exact Or.inr ⟨List.mem_cons_of_mem _ h1, h2, h3, h4⟩
      · rintro (h | ⟨h1, h2, h3, h4⟩)
        · exact Or.inl h
        · rcases List.mem_cons.mp h1 with rfl | h1
          · exact absurd hskip (not_or.mpr ⟨h2, h3⟩)
          · exact Or.inr ⟨h1, h2, h3, h4⟩
    · push_neg at hskip
      obtain ⟨hd, hi⟩ := hskip
      cases hf : src.fetchOk r with
      | false =>
        rw [runRecord_fetch_fail src (not_or.mpr ⟨hd, hi⟩) hf]
        constructor
        · rintro (h | ⟨h1, h2, h3, h4⟩)
          · rcases mem_insertS.mp h with rfl | h
            · exact Or.inr ⟨List.mem_cons_self _ _, hd, hi, Or.inl hf⟩
            · exact Or.inl h
          · exact Or.inr ⟨List.mem_cons_of_mem _ h1, h2, h3, h4⟩
        · rintro (h | ⟨h1, h2, h3, h4⟩)
          · exact Or.inl (mem_insertS_of_mem h)
          · rcases List.mem_cons.mp h1 with rfl | h1
            · exact Or.inl mem_insertS_self
            · exact Or.inr ⟨h1, h2, h3, h4⟩
      | true =>
        cases hidx : src.indexOk r with
        | true =>
          rw [runRecord_ok src (not_or.mpr ⟨hd, hi⟩) hf hidx]
          constructor
          · rintro (h | ⟨h1, h2, h3, h4⟩)
            · exact Or.inl h
            · exact Or.inr ⟨List.mem_cons_of_mem _ h1,
                fun hc => h2 (mem_insertS_of_mem hc),
                fun hc => h3 (mem_insertS_of_mem hc), h4⟩
          · rintro (h | ⟨h1, h2, h3, h4⟩)
            · exact Or.inl h
            · rcases List.mem_cons.mp h1 with rfl | h1
              · rcases h4 with h4 | h4
                · rw [hf] at h4; exact absurd h4 (by simp)
                · rw [hidx] at h4; exact absurd h4 (by simp)
              · by_cases hx : x = r
                · subst hx
                  rcases h4 with h4 | h4
                  · rw [hf] at h4; exact absurd h4 (by simp)
                  · rw [hidx] at h4; exact absurd h4 (by simp)
                · refine Or.inr ⟨h1, fun hc => ?_, fun hc => ?_, h4⟩
                  · rcases mem_insertS.mp hc with h' | h'
                    · exact hx h'
                    · exact h2 h'
                  · rcases mem_insertS.mp hc with h' | h'
                    · exact hx h'
                    · exact h3 h'
        | false =>
          rw [runRecord_index_fail src (not_or.mpr ⟨hd, hi⟩) hf hidx]
          constructor
          · rintro (h | ⟨h1, h2, h3, h4⟩)
            · rcases mem_insertS.mp h with rfl | h
              · exact Or.inr ⟨List.mem_cons_self _ _, hd, hi, Or.inr hidx⟩
              · exact Or.inl h
            · exact Or.inr ⟨List.mem_cons_of_mem _ h1,
                fun hc => h2 (mem_insertS_of_mem hc), h3, h4⟩
          · rintro (h | ⟨h1, h2, h3, h4⟩)
            · exact Or.inl (mem_insertS_of_mem h)
            · rcases List.mem_cons.mp h1 with rfl | h1
              · exact Or.inl mem_insertS_self
              · by_cases hx : x = r
                · subst hx; exact Or.inl mem_insertS_self
                · refine Or.inr ⟨h1, fun hc => ?_, h3, h4⟩
                  rcases mem_insertS.mp hc with h' | h'
                  · exact hx h'
                  · exact h2 h'

/-! ### Membership characterization of query processing -/

lemma completed_runQuery (src : DataSource) (L : Ledger) (q x : String) :
    x ∈ (runQuery src L q).completed_queries ↔
      x ∈ L.completed_queries ∨ x = q := by
  by_cases h : q ∈ L.completed_queries
  · rw [runQuery_skip src h]
    constructor
    · exact Or.inl
    · rintro (hx | rfl)
      · exact hx
      · exact h
  · rw [runQuery_proc src h]
    simp only [applyOp]
    rw [mem_insertS, completed_runRecords]
    tauto

lemma dl_runQuery (src : DataSource) (L : Ledger) (q x : String) :
    x ∈ (runQuery src L q).downloaded_record_ids ↔
      x ∈ L.downloaded_record_ids ∨
        (q ∉ L.completed_queries ∧ x ∈ src.search q ∧ src.fetchOk x = true ∧
          x ∉ L.downloaded_record_ids ∧ x ∉ L.indexed_record_ids) := by
  by_cases h : q ∈ L.completed_queries
  · rw [runQuery_skip src h]
    tauto
  · rw [runQuery_proc src h]
    simp only [applyOp]
    rw [dl_runRecords]
    tauto

lemma ix_runQuery (src : DataSource) (L : Ledger) (q x : String) :
    x ∈ (runQuery src L q).indexed_record_ids ↔
      x ∈ L.indexed_record_ids ∨
        (q ∉ L.completed_queries ∧ x ∈ src.search q ∧ src.fetchOk x = true ∧
          src.indexOk x = true ∧ x ∉ L.downloaded_record_ids ∧
          x ∉ L.indexed_record_ids) := by
  by_cases h : q ∈ L.completed_queries
  · rw [runQuery_skip src h]
    tauto
  · rw [runQuery_proc src h]
    simp only [applyOp]
    rw [ix_runRecords]
    tauto

lemma fl_runQuery (src : DataSource) (L : Ledger) (q x : String) :
    x ∈ (runQuery src L q).failed_record_ids ↔
      x ∈ L.failed_record_ids ∨
        (q ∉ L.completed_queries ∧ x ∈ src.search q ∧
          x ∉ L.downloaded_record_ids ∧ x ∉ L.indexed_record_ids ∧
          (src.fetchOk x = false ∨ src.indexOk x = false)) := by
  by_cases h : q ∈ L.completed_queries
  · rw [runQuery_skip src h]
    tauto
  · rw [runQuery_proc src h]
    simp only [applyOp]
    rw [fl_runRecords]
    tauto

/-! ### Membership characterization of a whole run -/

lemma completed_runPipeline (src : DataSource) (qs : List String) :
    ∀ (L : Ledger) (x : String),
      x ∈ (runPipeline src L qs).completed_queries ↔
        x ∈ L.completed_queries ∨ x ∈ qs := by
  induction qs with
  | nil => intro L x; simp [runPipeline_nil]
  | cons q qs ih =>
    intro L x
    rw [runPipeline_cons, ih, completed_runQuery, List.mem_cons]
    tauto

lemma dl_runPipeline (src : DataSource) (qs : List String) :
    ∀ (L : Ledger) (x : String),
      x ∈ (runPipeline src L qs).downloaded_record_ids ↔
        x ∈ L.downloaded_record_ids ∨
          ∃ q, q ∈ qs ∧ q ∉ L.completed_queries ∧ x ∈ src.search q ∧
            src.fetchOk x = true ∧ x ∉ L.downloaded_record_ids ∧
            x ∉ L.indexed_record_ids := by
  induction qs with
  | nil => intro L x; simp [runPipeline_nil]
  | cons q qs ih =>
    intro L x
    rw [runPipeline_cons, ih]
    constructor
    · rintro (h | ⟨q', h1, h2, h3, h4, h5, h6⟩)
      · rw [dl_runQuery] at h
        rcases h with h | ⟨hnc, hs, hf, hd, hi⟩
        · exact Or.inl h
        · exact Or.inr ⟨q, List.mem_cons_self _ _, hnc, hs, hf, hd, hi⟩
      · rw [completed_runQuery] at h2
        push_neg at h2
        rw [dl_runQuery] at h5
        push_neg at h5
        rw [ix_runQuery] at h6
        push_neg at h6
        exact Or.inr ⟨q', List.mem_cons_of_mem _ h1, h2.1, h3, h4, h5.1, h6.1⟩
    · rintro (h | ⟨q', h1, h2, h3, h4, h5, h6⟩)
      · exact Or.inl ((dl_runQuery src L q x).mpr (Or.inl h))
      · rcases List.mem_cons.mp h1 with rfl | h1
        · exact Or.inl ((dl_runQuery src L q' x).mpr
            (Or.inr ⟨h2, h3, h4, h5, h6⟩))
        · by_cases hdl : x ∈ (runQuery src L q).downloaded_record_ids
          · exact Or.inl hdl
          · by_cases hqq : q' = q
            · subst hqq
              exact absurd ((dl_runQuery src L q' x).mpr
                (Or.inr ⟨h2, h3, h4, h5, h6⟩)) hdl
            · have hix : x ∉ (runQuery src L q).indexed_record_ids := by
                intro hc
                rcases (ix_runQuery src L q x).mp hc with hc | ⟨c1, c2, c3, _, c5, c6⟩
                · exact h6 hc
                · exact hdl ((dl_runQuery src L q x).mpr
                    (Or.inr ⟨c1, c2, c3, c5, c6⟩))
              refine Or.inr ⟨q', h1, ?_, h3, h4, hdl, hix⟩
              rw [completed_runQuery]
              push_neg
              exact ⟨h2, hqq⟩

lemma ix_runPipeline (src : DataSource) (qs : List String) :
    ∀ (L : Ledger) (x : String),
      x ∈ (runPipeline src L qs).indexed_record_ids ↔
        x ∈ L.indexed_record_ids ∨
          ∃ q, q ∈ qs ∧ q ∉ L.completed_queries ∧ x ∈ src.search q ∧
            src.fetchOk x = true ∧ src.indexOk x = true ∧
            x ∉ L.downloaded_record_ids ∧ x ∉ L.indexed_record_ids := by
  induction qs with
  | nil => intro L x; simp [runPipeline_nil]
  | cons q qs ih =>
    intro L x
    rw [runPipeline_cons, ih]
    constructor
    · rintro (h | ⟨q', h1, h2, h3, h4, h5, h6, h7⟩)
      · rw [ix_runQuery] at h
        rcases h with h | ⟨hnc, hs, hf, hio, hd, hi⟩
        · exact Or.inl h
        · exact Or.inr ⟨q, List.mem_cons_self _ _, hnc, hs, hf, hio, hd, hi⟩
      · rw [completed_runQuery] at h2
        push_neg at h2
        rw [dl_runQuery] at h6
        push_neg at h6
        rw [ix_runQuery] at h7
        push_neg at h7
        exact Or.inr ⟨q', List.mem_cons_of_mem _ h1, h2.1, h3, h4, h5,
          h6.1, h7.1⟩
    · rintro (h | ⟨q', h1, h2, h3, h4, h5, h6, h7⟩)
      · exact Or.inl ((ix_runQuery src L q x).mpr (Or.inl h))
      · rcases List.mem_cons.mp h1 with rfl | h1
        · exact Or.inl ((ix_runQuery src L q' x).mpr
            (Or.inr ⟨h2, h3, h4, h5, h6, h7⟩))
        · by_cases hixq : x ∈ (runQuery src L q).indexed_record_ids
          · exact Or.inl hixq
          · by_cases hqq : q' = q
            · subst hqq
              exact absurd ((ix_runQuery src L q' x).mpr
                (Or.inr ⟨h2, h3, h4, h5, h6, h7⟩)) hixq
            · have hdl : x ∉ (runQuery src L q).downloaded_record_ids := by
                intro hc
                rcases (dl_runQuery src L q x).mp hc with hc | ⟨c1, c2, c3, c4, c5⟩
                · exact h6 hc
                · exact hixq ((ix_runQuery src L q x).mpr
                    (Or.inr ⟨c1, c2, c3, h5, c4, c5⟩))
              refine Or.inr ⟨q', h1, ?_, h3, h4, h5, hdl, hixq⟩
              rw [completed_runQuery]
              push_neg
              exact ⟨h2, hqq⟩

lemma fl_runPipeline (src : DataSource) (qs : List String) :
    ∀ (L : Ledger) (x : String),
      x ∈ (runPipeline src L qs).failed_record_ids ↔
        x ∈ L.failed_record_ids ∨
          ∃ q, q ∈ qs ∧ q ∉ L.completed_queries ∧ x ∈ src.search q ∧
            x ∉ L.downloaded_record_ids ∧ x ∉ L.indexed_record_ids ∧
            (src.fetchOk x = false ∨ src.indexOk x = false) := by
  induction qs with
  | nil => intro L x; simp [runPipeline_nil]
  | cons q qs ih =>
    intro L x
    rw [runPipeline_cons, ih]
    constructor
    · rintro (h | ⟨q', h1, h2, h3, h4, h5, h6⟩)
      · rw [fl_runQuery] at h
        rcases h with h | ⟨hnc, hs, hd, hi, hc⟩
        · exact Or.inl h
        · exact Or.inr ⟨q, List.mem_cons_self _ _, hnc, hs, hd, hi, hc⟩
      · rw [completed_runQuery] at h2
        push_neg at h2
        rw [dl_runQuery] at h4
        push_neg at h4
        rw [ix_runQuery] at h5
        push_neg at h5
        exact Or.inr ⟨q', List.mem_cons_of_mem _ h1, h2.1, h3, h4.1, h5.1, h6⟩
    · rintro (h | ⟨q', h1, h2, h3, h4, h5, h6⟩)
      · exact Or.inl ((fl_runQuery src L q x).mpr (Or.inl h))
      · rcases List.mem_cons.mp h1 with rfl | h1
        · exact Or.inl ((fl_runQuery src L q' x).mpr
            (Or.inr ⟨h2, h3, h4, h5, h6⟩))
        · by_cases hflq : x ∈ (runQuery src L q).failed_record_ids
          · exact Or.inl hflq
          · by_cases hqq : q' = q
            · subst hqq
              exact absurd ((fl_runQuery src L q' x).mpr
                (Or.inr ⟨h2, h3, h4, h5, h6⟩)) hflq
            · have hdl : x ∉ (runQuery src L q).downloaded_record_ids := by
                intro hc
                rcases (dl_runQuery src L q x).mp hc with hc | ⟨c1, c2, c3, c4, c5⟩
                · exact h4 hc
                · rcases h6 with h6 | h6
                  · rw [h6] at c3
                    exact absurd c3 (by simp)
                  · exact hflq ((fl_runQuery src L q x).mpr
                      (Or.inr ⟨c1, c2, c4, c5, Or.inr h6⟩))
              have hix : x ∉ (runQuery src L q).indexed_record_ids := by
                intro hc
                rcases (ix_runQuery src L q x).mp hc with hc | ⟨c1, c2, c3, c4, c5, c6⟩
                · exact h5 hc
                · rcases h6 with h6 | h6
                  · rw [h6] at c3
                    exact absurd c3 (by simp)
                  · rw [h6] at c4
                    exact absurd c4 (by simp)
              refine Or.inr ⟨q', h1, ?_, h3, hdl, hix, h6⟩
              rw [completed_runQuery]
              push_neg
              exact ⟨h2, hqq⟩

/-! ### Wellformedness of generated traces

Every trace the pipeline generates only records a download after a
successful fetch, only records an index for an already-downloaded record,
and only marks a query complete once each of its records is terminal.
These facts, stated op-by-op below, are what make the ledger invariants
hold in every interrupted (prefix) state. -/

lemma opsOK_append (src : DataSource) (a : List Op) :
    ∀ (L : Ledger) (b : List Op),
      OpsOK src L (a ++ b) ↔ OpsOK src L a ∧ OpsOK src (applyOps L a) b := by
  induction a with
  | nil => intro L b; simp [OpsOK, applyOps_nil]
  | cons o a ih =>
    intro L b
    show (GoodOp src L o ∧ OpsOK src (applyOp L o) (a ++ b)) ↔ _
    rw [ih, applyOps_cons]
    show _ ↔ (GoodOp src L o ∧ OpsOK src (applyOp L o) a) ∧ _
    tauto

lemma opsOK_take (src : DataSource) (ops : List Op) :
    ∀ (L : Ledger) (n : Nat), OpsOK src L ops → OpsOK src L (ops.take n) := by
  induction ops with
  | nil => intro L n _; rw [List.take_nil]; trivial
  | cons o ops ih =>
    intro L n h
    cases n with
    | zero => trivial
    | succ n => exact ⟨h.1, ih (applyOp L o) n h.2⟩

lemma recInv_applyOp (src : DataSource) {L : Ledger} {o : Op}
    (h : RecInv src L) (hg : GoodOp src L o) : RecInv src (applyOp L o) := by
  obtain ⟨ha, hc⟩ := h
  cases o with
  | fetch r => exact ⟨ha, hc⟩
  | record_downloaded r =>
    refine ⟨fun x hx => mem_insertS_of_mem (ha x hx), fun x hx => ?_⟩
    rcases mem_insertS.mp hx with rfl | hx
    · exact hg
    · exact hc x hx
  | record_indexed r =>
    refine ⟨fun x hx => ?_, hc⟩
    rcases mem_insertS.mp hx with rfl | hx
    · exact hg
    · exact ha x hx
  | record_failed r => exact ⟨ha, hc⟩
  | record_query_complete q => exact ⟨ha, hc⟩

lemma accInv_applyOp (src : DataSource) {L : Ledger} {o : Op}
    (h : AccInv src L) (hg : GoodOp src L o) : AccInv src (applyOp L o) := by
  intro q hq r hr
  have hle := applyOp_le L o
  cases o with
  | fetch r' => exact h q hq r hr
  | record_downloaded r' =>
    have := h q hq r hr
    exact ⟨fun hf => mem_insertS_of_mem (this.1 hf), this.2⟩
  | record_indexed r' => exact h q hq r hr
  | record_failed r' =>
    have := h q hq r hr
    exact ⟨this.1, fun hf => mem_insertS_of_mem (this.2 hf)⟩
  | record_query_complete q' =>
    rcases mem_insertS.mp hq with rfl | hq
    · exact hg r hr
    · exact h q hq r hr

lemma recInv_applyOps (src : DataSource) (ops : List Op) :
    ∀ L : Ledger, RecInv src L → OpsOK src L ops →
      RecInv src (applyOps L ops) := by
  induction ops with
  | nil => intro L h _; exact h
  | cons o ops ih =>
    intro L h hok
    rw [applyOps_cons]
    exact ih (applyOp L o) (recInv_applyOp src h hok.1) hok.2

lemma accInv_applyOps (src : DataSource) (ops : List Op) :
    ∀ L : Ledger, AccInv src L → OpsOK src L ops →
      AccInv src (applyOps L ops) := by
  induction ops with
  | nil => intro L h _; exact h
  | cons o ops ih =>
    intro L h hok
    rw [applyOps_cons]
    exact ih (applyOp L o) (accInv_applyOp src h hok.1) hok.2

/-- Every record of a processed list is downloaded (successful fetch) or
failed (unsuccessful fetch) afterwards, provided the invariants held. -/
lemma terminal_runRecords (src : DataSource) {L : Ledger} (hinv : RecInv src L)
    {rs : List String} {r : String} (hr : r ∈ rs) :
    (src.fetchOk r = true → r ∈ (runRecords src L rs).downloaded_record_ids) ∧
    (src.fetchOk r = false → r ∈ (runRecords src L rs).failed_record_ids) := by
  constructor
  · intro hf
    rw [dl_runRecords]
    by_cases hd : r ∈ L.downloaded_record_ids
    · exact Or.inl hd
    · by_cases hi : r ∈ L.indexed_record_ids
      · exact absurd (hinv.1 r hi) hd
      · exact Or.inr ⟨hr, hf, hd, hi⟩
  · intro hf
    rw [fl_runRecords]
    by_cases hfl : r ∈ L.failed_record_ids
    · exact Or.inl hfl
    · by_cases hd : r ∈ L.downloaded_record_ids
      · rw [hinv.2 r hd] at hf
        exact absurd hf (by simp)
      · by_cases hi : r ∈ L.indexed_record_ids
        · exact absurd (hinv.1 r hi) hd
        · exact Or.inr ⟨hr, hd, hi, Or.inl hf⟩

lemma opsOK_recordTrace (src : DataSource) (L : Ledger) (r : String) :
    OpsOK src L (recordTrace src L r) := by
  unfold recordTrace
  by_cases hskip : r ∈ L.downloaded_record_ids ∨ r ∈ L.indexed_record_ids
  · rw [if_pos hskip]; trivial
  · rw [if_neg hskip]
    cases hf : src.fetchOk r with
    | false =>
      simp only [Bool.false_eq_true, if_false]
      exact ⟨trivial, trivial, trivial⟩
    | true =>
      simp only [if_true]
      cases hidx : src.indexOk r with
      | false =>
        simp only [Bool.false_eq_true, if_false]
        exact ⟨trivial, hf, trivial, trivial⟩
      | true =>
        simp only [if_true]
        exact ⟨trivial, hf, mem_insertS_self, trivial⟩

lemma opsOK_recordsTrace (src : DataSource) (rs : List String) :
    ∀ L : Ledger, OpsOK src L (recordsTrace src L rs) := by
  induction rs with
  | nil => intro L; trivial
  | cons r rs ih =>
    intro L
    rw [recordsTrace_cons, opsOK_append]
    exact ⟨opsOK_recordTrace src L r, ih (runRecord src L r)⟩

lemma opsOK_queryTrace (src : DataSource) {L : Ledger} (q : String)
    (hinv : RecInv src L) : OpsOK src L (queryTrace src L q) := by
  unfold queryTrace
  by_cases h : q ∈ L.completed_queries
  · rw [if_pos h]; trivial
  · rw [if_neg h, opsOK_append]
    refine ⟨opsOK_recordsTrace src _ L, ?_⟩
    refine ⟨?_, trivial⟩
    intro r hr
    exact terminal_runRecords src hinv hr

lemma recInv_runQuery (src : DataSource) {L : Ledger} (q : String)
    (hinv : RecInv src L) : RecInv src (runQuery src L q) :=
  recInv_applyOps src _ L hinv (opsOK_queryTrace src q hinv)

lemma opsOK_pipelineTrace (src : DataSource) (qs : List String) :
    ∀ L : Ledger, RecInv src L → OpsOK src L (pipelineTrace src L qs) := by
  induction qs with
  | nil => intro L _; trivial
  | cons q qs ih =>
    intro L hinv
    rw [pipelineTrace_cons, opsOK_append]
    exact ⟨opsOK_queryTrace src q hinv,
      ih (runQuery src L q) (recInv_runQuery src q hinv)⟩

lemma recInv_empty (src : DataSource) : RecInv src emptyLedger := by
  constructor <;> intro x hx <;> exact absurd hx (List.not_mem_nil x)

lemma accInv_empty (src : DataSource) : AccInv src emptyLedger := by
  intro q hq
  exact absurd hq (List.not_mem_nil q)

/-! ### A full run from the empty ledger, characterized -/

lemma completed_full (src : DataSource) (qs : List String) (x : String) :
    x ∈ (runPipeline src emptyLedger qs).completed_queries ↔ x ∈ qs := by
  rw [completed_runPipeline]
  simp [emptyLedger]

lemma dl_full (src : DataSource) (qs : List String) (x : String) :
    x ∈ (runPipeline src emptyLedger qs).downloaded_record_ids ↔
      ∃ q, q ∈ qs ∧ x ∈ src.search q ∧ src.fetchOk x = true := by
  rw [dl_runPipeline]
  simp [emptyLedger]

lemma ix_full (src : DataSource) (qs : List String) (x : String) :
    x ∈ (runPipeline src emptyLedger qs).indexed_record_ids ↔
      ∃ q, q ∈ qs ∧ x ∈ src.search q ∧ src.fetchOk x = true ∧
        src.indexOk x = true := by
  rw [ix_runPipeline]
  simp [emptyLedger]

lemma fl_full (src : DataSource) (qs : List String) (x : String) :
    x ∈ (runPipeline src emptyLedger qs).failed_record_ids ↔
      ∃ q, q ∈ qs ∧ x ∈ src.search q ∧
        (src.fetchOk x = false ∨ src.indexOk x = false) := by
  rw [fl_runPipeline]
  simp [emptyLedger]

/-- The state of a run interrupted after `n` ledger operations satisfies
the run invariants and is contained in the final state of the
uninterrupted run. -/
lemma interrupted_invs (src : DataSource) (qs : List String) (n : Nat) :
    RecInv src (interruptedAt src emptyLedger qs n) ∧
    AccInv src (interruptedAt src emptyLedger qs n) ∧
    LedgerLE (interruptedAt src emptyLedger qs n)
      (runPipeline src emptyLedger qs) := by
  have hok : OpsOK src emptyLedger (pipelineTrace src emptyLedger qs) :=
    opsOK_pipelineTrace src qs emptyLedger (recInv_empty src)
  have hok' := opsOK_take src _ emptyLedger n hok
  refine ⟨recInv_applyOps src _ emptyLedger (recInv_empty src) hok',
    accInv_applyOps src _ emptyLedger (accInv_empty src) hok', ?_⟩
  have hdecomp : runPipeline src emptyLedger qs =
      applyOps (interruptedAt src emptyLedger qs n)
        ((pipelineTrace src emptyLedger qs).drop n) := by
    unfold interruptedAt runPipeline
    rw [← applyOps_append, List.take_append_drop]
  rw [hdecomp]
  exact applyOps_le _ _

/-! ### Counting fetch invocations -/

lemma fetchCount_append (r : String) (a b : List Op) :
    fetchCount r (a ++ b) = fetchCount r a + fetchCount r b := by
  induction a with
  | nil => simp [fetchCount]
  | cons o a ih => simp [fetchCount, ih, Nat.add_assoc]

lemma fetchCount_recordTrace_ne (src : DataSource) (L : Ledger)
    {s r : String} (h : s ≠ r) :
    fetchCount r (recordTrace src L s) = 0 := by
  unfold recordTrace
  by_cases hskip : s ∈ L.downloaded_record_ids ∨ s ∈ L.indexed_record_ids
  · rw [if_pos hskip]; rfl
  · rw [if_neg hskip]
    cases hf : src.fetchOk s with
    | false => simp [fetchCount, h]
    | true =>
      cases hidx : src.indexOk s with
      | false => simp [fetchCount, h]
      | true => simp [fetchCount, h]

lemma fetchCount_recordsTrace_zero (src : DataSource) (rs : List String)
    {r : String} :
    ∀ L : Ledger, r ∈ L.downloaded_record_ids →
      fetchCount r (recordsTrace src L rs) = 0 := by
  induction rs with
  | nil => intro L _; rfl
  | cons s rs ih =>
    intro L h
    rw [recordsTrace_cons, fetchCount_append]
    have h1 : fetchCount r (recordTrace src L s) = 0 := by
      by_cases hs : s = r
      · subst hs
        unfold recordTrace
        rw [if_pos (Or.inl h)]
        rfl
      · exact fetchCount_recordTrace_ne src L hs
    have h2 : r ∈ (runRecord src L s).downloaded_record_ids :=
      (applyOps_le L (recordTrace src L s)).2.1 r h
    rw [h1, ih (runRecord src L s) h2]

lemma fetchCount_queryTrace_zero (src : DataSource) {L : Ledger}
    {q r : String} (h : r ∈ L.downloaded_record_ids) :
    fetchCount r (queryTrace src L q) = 0 := by
  unfold queryTrace
  by_cases hq : q ∈ L.completed_queries
  · rw [if_pos hq]; rfl
  · rw [if_neg hq, fetchCount_append,
      fetchCount_recordsTrace_zero src _ L h]
    rfl

lemma fetchCount_pipelineTrace_zero (src : DataSource) (qs : List String)
    {r : String} :
    ∀ L : Ledger, r ∈ L.downloaded_record_ids →
      fetchCount r (pipelineTrace src L qs) = 0 := by
  induction qs with
  | nil => intro L _; rfl
  | cons q qs ih =>
    intro L h
    rw [pipelineTrace_cons, fetchCount_append,
      fetchCount_queryTrace_zero src h,
      ih (runQuery src L q) ((applyOps_le L (queryTrace src L q)).2.1 r h)]

lemma dl_runRecord_self (src : DataSource) {L : Ledger} {r : String}
    (h : ¬(r ∈ L.downloaded_record_ids ∨ r ∈ L.indexed_record_ids))
    (hf : src.fetchOk r = true) :
    r ∈ (runRecord src L r).downloaded_record_ids := by
  cases hidx : src.indexOk r with
  | true => rw [runRecord_ok src h hf hidx]; exact mem_insertS_self
  | false => rw [runRecord_index_fail src h hf hidx]; exact mem_insertS_self

lemma fetchCount_recordsTrace_le (src : DataSource) (rs : List String)
    {r : String} (hf : src.fetchOk r = true) :
    ∀ L : Ledger,
      fetchCount r (recordsTrace src L rs) ≤
        (if r ∈ L.downloaded_record_ids then 0 else 1) ∧
      (1 ≤ fetchCount r (recordsTrace src L rs) →
        r ∈ (runRecords src L rs).downloaded_record_ids) := by
  induction rs with
  | nil =>
    intro L
    constructor
    · show (0 : Nat) ≤ _
      exact Nat.zero_le _
    · intro h
      exact absurd h (by norm_num [fetchCount])
  | cons s rs ih =>
    intro L
    rw [recordsTrace_cons, fetchCount_append]
    by_cases hd : r ∈ L.downloaded_record_ids
    · rw [if_pos hd]
      have h1 : fetchCount r (recordTrace src L s) = 0 := by
        by_cases hs : s = r
        · subst hs; unfold recordTrace; rw [if_pos (Or.inl hd)]; rfl
        · exact fetchCount_recordTrace_ne src L hs
      have h2 : fetchCount r (recordsTrace src (runRecord src L s) rs) = 0 :=
        fetchCount_recordsTrace_zero src rs (runRecord src L s)
          ((applyOps_le L (recordTrace src L s)).2.1 r hd)
      rw [h1, h2]
      refine ⟨Nat.le_refl 0, fun h => absurd h (by norm_num)⟩
    · rw [if_neg hd]
      by_cases hs : s = r
      · subst hs
        by_cases hskip : s ∈ L.downloaded_record_ids ∨ s ∈ L.indexed_record_ids
        · have h1 : fetchCount s (recordTrace src L s) = 0 := by
            unfold recordTrace; rw [if_pos hskip]; rfl
          have hLL : runRecord src L s = L := runRecord_skip src hskip
          rw [h1, hLL, runRecords_cons, hLL]
          obtain ⟨ha, hb⟩ := ih L
          rw [if_neg hd] at ha
          exact ⟨by omega, fun h => hb (by omega)⟩
        · have h1 : fetchCount s (recordTrace src L s) = 1 := by
            unfold recordTrace
            rw [if_neg hskip]
            cases hidx : src.indexOk s <;> simp [hf, fetchCount]
          have hmem : s ∈ (runRecord src L s).downloaded_record_ids :=
            dl_runRecord_self src hskip hf
          have h2 : fetchCount s (recordsTrace src (runRecord src L s) rs) = 0 :=
            fetchCount_recordsTrace_zero src rs (runRecord src L s) hmem
          rw [h1, h2]
          refine ⟨by omega, fun _ => ?_⟩
          rw [runRecords_cons]
          exact (applyOps_le (runRecord src L s) _).2.1 s hmem
      · have h1 : fetchCount r (recordTrace src L s) = 0 :=
          fetchCount_recordTrace_ne src L hs
        rw [h1]
        obtain ⟨ha, hb⟩ := ih (runRecord src L s)
        constructor
        · have hsplit : (if r ∈ (runRecord src L s).downloaded_record_ids
              then (0 : Nat) else 1) ≤ 1 := by
            split <;> omega
          omega
        · intro h
          rw [runRecords_cons]
          exact hb (by omega)

lemma fetchCount_queryTrace_le (src : DataSource) {r : String} (q : String)
    (hf : src.fetchOk r = true) (L : Ledger) :
    fetchCount r (queryTrace src L q) ≤
      (if r ∈ L.downloaded_record_ids then 0 else 1) ∧
    (1 ≤ fetchCount r (queryTrace src L q) →
      r ∈ (runQuery src L q).downloaded_record_ids) := by
  unfold queryTrace
  by_cases hq : q ∈ L.completed_queries
  · rw [if_pos hq]
    refine ⟨Nat.zero_le _, fun h => absurd h (by norm_num [fetchCount])⟩
  · rw [if_neg hq, fetchCount_append]
    obtain ⟨ha, hb⟩ := fetchCount_recordsTrace_le src (src.search q) hf L
    have hc : fetchCount r [Op.record_query_complete q] = 0 := rfl
    rw [hc]
    constructor
    · omega
    · intro h
      have hmem := hb (by omega)
      rw [runQuery_proc src hq]
      exact (applyOp_le _ _).2.1 r hmem

lemma fetchCount_pipelineTrace_le (src : DataSource) (qs : List String)
    {r : String} (hf : src.fetchOk r = true) :
    ∀ L : Ledger,
      fetchCount r (pipelineTrace src L qs) ≤
        (if r ∈ L.downloaded_record_ids then 0 else 1) := by
  induction qs with
  | nil => intro L; show (0 : Nat) ≤ _; exact Nat.zero_le _
  | cons q qs ih =>
    intro L
    rw [pipelineTrace_cons, fetchCount_append]
    by_cases hd : r ∈ L.downloaded_record_ids
    · rw [if_pos hd, fetchCount_queryTrace_zero src hd,
        fetchCount_pipelineTrace_zero src qs (runQuery src L q)
          ((applyOps_le L (queryTrace src L q)).2.1 r hd)]
    · rw [if_neg hd]
      obtain ⟨ha, hb⟩ := fetchCount_queryTrace_le src q hf L
      rw [if_neg hd] at ha
      have hc := ih (runQuery src L q)
      by_cases h1 : 1 ≤ fetchCount r (queryTrace src L q)
      · rw [if_pos (hb h1)] at hc
        omega
      · have hsplit : (if r ∈ (runQuery src L q).downloaded_record_ids
            then (0 : Nat) else 1) ≤ 1 := by split <;> omega
        omega

/-! ### Downloaded records end terminal -/

lemma dl_terminal_runPipeline (src : DataSource) (qs : List String)
    {L : Ledger}
    (h : ∀ x, x ∈ L.downloaded_record_ids →
      x ∈ L.indexed_record_ids ∨ x ∈ L.failed_record_ids) :
    ∀ x, x ∈ (runPipeline src L qs).downloaded_record_ids →
      x ∈ (runPipeline src L qs).indexed_record_ids ∨
        x ∈ (runPipeline src L qs).failed_record_ids := by
  intro x hx
  rcases (dl_runPipeline src qs L x).mp hx with hx | ⟨q, h1, h2, h3, h4, h5, h6⟩
  · rcases h x hx with hi | hfl
    · exact Or.inl ((applyOps_le L _).2.2.1 x hi)
    · exact Or.inr ((applyOps_le L _).2.2.2 x hfl)
  · cases hio : src.indexOk x with
    | true =>
      exact Or.inl ((ix_runPipeline src qs L x).mpr
        (Or.inr ⟨q, h1, h2, h3, h4, hio, h5, h6⟩))
    | false =>
      exact Or.inr ((fl_runPipeline src qs L x).mpr
        (Or.inr ⟨q, h1, h2, h3, h5, h6, Or.inr hio⟩))

lemma record_terminal_runRecords (src : DataSource) {L : Ledger}
    (h : ∀ x, x ∈ L.downloaded_record_ids →
      x ∈ L.indexed_record_ids ∨ x ∈ L.failed_record_ids)
    {rs : List String} {r : String} (hr : r ∈ rs) :
    r ∈ (runRecords src L rs).indexed_record_ids ∨
      r ∈ (runRecords src L rs).failed_record_ids := by
  by_cases hd : r ∈ L.downloaded_record_ids
  · rcases h r hd with hi | hfl
    · exact Or.inl ((applyOps_le L _).2.2.1 r hi)
    · exact Or.inr ((applyOps_le L _).2.2.2 r hfl)
  · by_cases hi : r ∈ L.indexed_record_ids
    · exact Or.inl ((applyOps_le L _).2.2.1 r hi)
    · cases hf : src.fetchOk r with
      | true =>
        cases hio : src.indexOk r with
        | true =>
          exact Or.inl ((ix_runRecords src rs L r).mpr
            (Or.inr ⟨hr, hf, hio, hd, hi⟩))
        | false =>
          exact Or.inr ((fl_runRecords src rs L r).mpr
            (Or.inr ⟨hr, hd, hi, Or.inr hio⟩))
      | false =>
        exact Or.inr ((fl_runRecords src rs L r).mpr
          (Or.inr ⟨hr, hd, hi, Or.inl hf⟩))

/-! ### Rate limiter lemmas -/

lemma acquireCompletion_ge (interval last now : ℚ) :
    last + interval ≤ acquireCompletion interval last now := by
  unfold acquireCompletion
  have h : interval - (now - last) ≤ max 0 (interval - (now - last)) :=
    le_max_right _ _
  linarith

lemma spaced_acquireTimes (interval : ℚ) (gs : List ℚ) :
    ∀ now last : ℚ, Spaced interval (acquireTimes interval now last gs) := by
  induction gs with
  | nil =>
    intro now last
    show True
    trivial
  | cons g gs ih =>
    intro now last
    cases gs with
    | nil =>
      show True
      trivial
    | cons g2 gs2 =>
      exact ⟨acquireCompletion_ge interval _ _, ih _ _⟩

lemma spaced_adjacent (interval : ℚ) :
    ∀ l : List ℚ, Spaced interval l →
      ∀ i, i + 1 < l.length → l.getD i 0 + interval ≤ l.getD (i + 1) 0 := by
  intro l
  induction l with
  | nil =>
    intro _ i h
    simp at h
  | cons x t ih =>
    intro hs i hi
    cases t with
    | nil => simp at hi
    | cons y t2 =>
      obtain ⟨h1, h2⟩ := hs
      cases i with
      | zero => simpa using h1
      | succ i =>
        have hlen : i + 1 < (y :: t2).length := by
          simpa using hi
        simpa using ih h2 i hlen

lemma spaced_get (interval : ℚ) (l : List ℚ) (hs : Spaced interval l)
    (i : Nat) :
    ∀ k, i + k < l.length →
      l.getD i 0 + k * interval ≤ l.getD (i + k) 0 := by
  intro k
  induction k with
  | zero =>
    intro _
    simp
  | succ k ih =>
    intro h
    have h1 := ih (by omega)
    have h2 := spaced_adjacent interval l hs (i + k) (by omega)
    have h3 : i + (k + 1) = (i + k) + 1 := by omega
    rw [h3]
    push_cast
    linarith

lemma pairwise_lt_getD (S : List Nat) :
    S.Pairwise (· < ·) →
      ∀ j, j < S.length → S.getD 0 0 + j ≤ S.getD j 0 := by
  induction S with
  | nil =>
    intro _ j h
    simp at h
  | cons s S ih =>
    intro hp j hj
    rcases List.pairwise_cons.mp hp with ⟨hhead, htail⟩
    cases j with
    | zero => simp
    | succ j =>
      have hlen : j < S.length := by simpa using hj
      have h1 := ih htail j hlen
      have h2 : s < S.getD 0 0 := by
        cases S with
        | nil => simp at hlen
        | cons a S2 =>
          have : a ∈ a :: S2 := List.mem_cons_self a S2
          simpa using hhead a this
      simp only [List.getD_cons_succ, List.getD_cons_zero] at *
      omega

lemma windowCount_le_ceiling (C : Nat) (hC : 0 < C) (l : List ℚ)
    (hs : Spaced (1 / C) l) (a : ℚ) : windowCount l a ≤ C := by
  by_contra hcon
  push_neg at hcon
  unfold windowCount at hcon
  have hpair : ((List.range l.length).filter
      (fun i => decide (a ≤ l.getD i 0) && decide (l.getD i 0 < a + 1))).Pairwise
        (· < ·) :=
    List.Pairwise.filter _ (List.pairwise_lt_range _)
  set S := (List.range l.length).filter
      (fun i => decide (a ≤ l.getD i 0) && decide (l.getD i 0 < a + 1)) with hSdef
  have hCS : C < S.length := hcon
  have hgap := pairwise_lt_getD S hpair C hCS
  have h0lt : 0 < S.length := by omega
  have hmem0 : S.getD 0 0 ∈ S := by
    rw [List.getD_eq_getElem S 0 h0lt]
    exact List.getElem_mem h0lt
  have hmem1 : S.getD C 0 ∈ S := by
    rw [List.getD_eq_getElem S 0 hCS]
    exact List.getElem_mem hCS
  obtain ⟨hr0, hp0⟩ := List.mem_filter.mp hmem0
  obtain ⟨hr1, hp1⟩ := List.mem_filter.mp hmem1
  rw [Bool.and_eq_true, decide_eq_true_eq, decide_eq_true_eq] at hp0 hp1
  have hlt1 : S.getD C 0 < l.length := List.mem_range.mp hr1
  have hsg := spaced_get (1 / C) l hs (S.getD 0 0) (S.getD C 0 - S.getD 0 0)
    (by omega)
  rw [show S.getD 0 0 + (S.getD C 0 - S.getD 0 0) = S.getD C 0 from by omega]
    at hsg
  have hCpos : (0 : ℚ) < (C : ℚ) := by exact_mod_cast hC
  have hivpos : (0 : ℚ) < 1 / C := by positivity
  have hkn : C ≤ S.getD C 0 - S.getD 0 0 := by omega
  have hk : (C : ℚ) ≤ ((S.getD C 0 - S.getD 0 0 : Nat) : ℚ) := by
    exact_mod_cast hkn
  have hmul : (C : ℚ) * (1 / C) ≤
      ((S.getD C 0 - S.getD 0 0 : Nat) : ℚ) * (1 / C) :=
    mul_le_mul_of_nonneg_right hk (le_of_lt hivpos)
  have hone : (C : ℚ) * (1 / C) = 1 := mul_one_div_cancel (ne_of_gt hCpos)
  have hw0 := hp0.1
  have hw1 := hp1.2
  linarith

/-! ### Round-robin counting lemmas -/

lemma assignedCount_succ (Q K k : Nat) :
    assignedCount (Q + 1) K k =
      assignedCount Q K k + (if Q % K = k then 1 else 0) := by
  unfold assignedCount assignedCredential
  rw [List.range_succ, List.filter_append, List.length_append]
  by_cases h : Q % K = k <;> simp [h]

lemma ite_one_step (k r : Nat) :
    (if k < r then (1 : Nat) else 0) + (if r = k then 1 else 0) =
      if k < r + 1 then 1 else 0 := by
  by_cases h1 : k < r
  · simp [h1, show r ≠ k from by omega, show k < r + 1 from by omega]
  · by_cases h2 : r = k
    · subst h2
      simp [h1, show r < r + 1 from by omega]
    · simp [h1, h2, show ¬(k < r + 1) from by omega]

lemma assignedCount_formula (K k : Nat) (_hK : 0 < K) (hk : k < K) :
    ∀ d r, r ≤ K →
      assignedCount (K * d + r) K k = d + (if k < r then 1 else 0) := by
  intro d
  induction d with
  | zero =>
    intro r
    induction r with
    | zero =>
      intro _
      simp [assignedCount]
    | succ r ihr =>
      intro hr
      rw [show K * 0 + (r + 1) = (K * 0 + r) + 1 from by ring,
        assignedCount_succ, ihr (by omega)]
      have hmod : (K * 0 + r) % K = r := by
        rw [show K * 0 + r = r from by ring]
        exact Nat.mod_eq_of_lt (by omega)
      rw [hmod, Nat.add_assoc, ite_one_step]
  | succ d ihd =>
    intro r
    induction r with
    | zero =>
      intro _
      rw [show K * (d + 1) + 0 = K * d + K from by ring, ihd K (le_refl K)]
      simp [hk]
    | succ r ihr =>
      intro hr
      rw [show K * (d + 1) + (r + 1) = (K * (d + 1) + r) + 1 from by ring,
        assignedCount_succ, ihr (by omega)]
      have hmod : (K * (d + 1) + r) % K = r := by
        rw [Nat.add_comm, Nat.mul_comm, Nat.add_mul_mod_self_right]
        exact Nat.mod_eq_of_lt (by omega)
      rw [hmod, Nat.add_assoc, ite_one_step]

lemma assignedCount_eq (Q K k : Nat) (hK : 0 < K) (hk : k < K) :
    assignedCount Q K k = Q / K + (if k < Q % K then 1 else 0) := by
  have h1 : K * (Q / K) + Q % K = Q := Nat.div_add_mod Q K
  have h2 : Q % K ≤ K := le_of_lt (Nat.mod_lt Q hK)
  calc assignedCount Q K k
      = assignedCount (K * (Q / K) + Q % K) K k := by rw [h1]
    _ = Q / K + (if k < Q % K then 1 else 0) :=
        assignedCount_formula K k hK hk (Q / K) (Q % K) h2

lemma ceil_div_of_mod_zero (Q K : Nat) (hK : 0 < K) (h : Q % K = 0) :
    (Q + K - 1) / K = Q / K := by
  have h1 : K * (Q / K) + Q % K = Q := Nat.div_add_mod Q K
  rw [h] at h1
  have h2 : Q + K - 1 = K * (Q / K) + (K - 1) := by omega
  have h3 : (K - 1) / K = 0 := Nat.div_eq_of_lt (by omega)
  rw [h2, Nat.mul_add_div hK, h3]
  omega

lemma ceil_div_of_mod_pos (Q K : Nat) (hK : 0 < K) (h : 0 < Q % K) :
    (Q + K - 1) / K = Q / K + 1 := by
  have h1 : K * (Q / K) + Q % K = Q := Nat.div_add_mod Q K
  have hmlt : Q % K < K := Nat.mod_lt Q hK
  have h2 : Q + K - 1 = K * (Q / K) + (Q % K + K - 1) := by omega
  rw [h2, Nat.mul_add_div hK]
  have h3 : (Q % K + K - 1) / K = 1 := by
    apply Nat.div_eq_of_lt_le
    · omega
    · omega
  rw [h3]

end Pipeline

open Pipeline

/-! ## Claim theorems -/

/-- C1 counterexample: the claim as stated — an interrupted-and-restarted
run always reaches the same final four ledger sets as an uninterrupted
run — is false.  Interrupting the concrete run of query `q1` after exactly
2 ledger operations (just after `record_downloaded r1`, before
`record_indexed r1`) and restarting makes the resumed run skip `r1`
(it is already in `downloaded_record_ids`), so `r1` is never indexed,
while the uninterrupted run indexes it. -/
theorem c1_idempotent_resume_counterexample :
    ¬ ledgerEquiv
        (runPipeline demoSrc (interruptedAt demoSrc emptyLedger ["q1"] 2)
          ["q1"])
        (runPipeline demoSrc emptyLedger ["q1"]) := by
  intro h
  have h2 := (h.2.2.1 "r1").mpr (by decide)
  exact absurd h2 (by decide)

/-- C1 (amended): if the interruption point is one at which every record
of `downloaded_record_ids` is already terminal (in `indexed_record_ids` or
`failed_record_ids`) — in particular at record-processing or query
boundaries — then restarting the pipeline from the interrupted Ledger
state produces the same final Ledger state (all four sets, compared as
sets) as a single uninterrupted run over the same queries and
deterministic data source. -/
theorem c1_idempotent_resume_amended (src : DataSource) (qs : List String)
    (n : Nat)
    (hterm : ∀ r,
      r ∈ (interruptedAt src emptyLedger qs n).downloaded_record_ids →
      r ∈ (interruptedAt src emptyLedger qs n).indexed_record_ids ∨
      r ∈ (interruptedAt src emptyLedger qs n).failed_record_ids) :
    ledgerEquiv
      (runPipeline src (interruptedAt src emptyLedger qs n) qs)
      (runPipeline src emptyLedger qs) := by
  obtain ⟨hrec, hacc, hle⟩ := interrupted_invs src qs n
  set P := interruptedAt src emptyLedger qs n with hPdef
  refine ⟨?_, ?_, ?_, ?_⟩
  · intro q
    rw [completed_runPipeline, completed_full]
    constructor
    · rintro (h | h)
      · have h2 := hle.1 q h
        rwa [completed_full] at h2
      · exact h
    · exact fun h => Or.inr h
  · intro x
    rw [dl_runPipeline, dl_full]
    constructor
    · rintro (h | ⟨q, hq, _, hs, hf, _, _⟩)
      · have h2 := hle.2.1 x h
        rwa [dl_full] at h2
      · exact ⟨q, hq, hs, hf⟩
    · rintro ⟨q, hq, hs, hf⟩
      by_cases hd : x ∈ P.downloaded_record_ids
      · exact Or.inl hd
      · have hi : x ∉ P.indexed_record_ids := fun hc => hd (hrec.1 x hc)
        by_cases hcq : q ∈ P.completed_queries
        · exact absurd ((hacc q hcq x hs).1 hf) hd
        · exact Or.inr ⟨q, hq, hcq, hs, hf, hd, hi⟩
  · intro x
    rw [ix_runPipeline, ix_full]
    constructor
    · rintro (h | ⟨q, hq, _, hs, hf, hio, _, _⟩)
      · have h2 := hle.2.2.1 x h
        rwa [ix_full] at h2
      · exact ⟨q, hq, hs, hf, hio⟩
    · rintro ⟨q, hq, hs, hf, hio⟩
      by_cases hixP : x ∈ P.indexed_record_ids
      · exact Or.inl hixP
      · have hd : x ∉ P.downloaded_record_ids := by
          intro hd
          rcases hterm x hd with h | h
          · exact hixP h
          · have h2 := hle.2.2.2 x h
            rw [fl_full] at h2
            obtain ⟨q2, _, _, hco⟩ := h2
            rcases hco with hco | hco
            · rw [hf] at hco
              exact absurd hco (by simp)
            · rw [hio] at hco
              exact absurd hco (by simp)
        by_cases hcq : q ∈ P.completed_queries
        · exact absurd ((hacc q hcq x hs).1 hf) hd
        · exact Or.inr ⟨q, hq, hcq, hs, hf, hio, hd, hixP⟩
  · intro x
    rw [fl_runPipeline, fl_full]
    constructor
    · rintro (h | ⟨q, hq, _, hs, _, _, hco⟩)
      · have h2 := hle.2.2.2 x h
        rwa [fl_full] at h2
      · exact ⟨q, hq, hs, hco⟩
    · rintro ⟨q, hq, hs, hco⟩
      by_cases hflP : x ∈ P.failed_record_ids
      · exact Or.inl hflP
      · have hd : x ∉ P.downloaded_record_ids := by
          intro hd
          have hf := hrec.2 x hd
          rcases hco with hco | hco
          · rw [hf] at hco
            exact absurd hco (by simp)
          · rcases hterm x hd with h | h
            · have h2 := hle.2.2.1 x h
              rw [ix_full] at h2
              obtain ⟨q2, _, _, _, hio⟩ := h2
              rw [hco] at hio
              exact absurd hio (by simp)
            · exact hflP h
        have hi : x ∉ P.indexed_record_ids := fun hc => hd (hrec.1 x hc)
        by_cases hcq : q ∈ P.completed_queries
        · cases hfx : src.fetchOk x with
          | true => exact absurd ((hacc q hcq x hs).1 hfx) hd
          | false => exact absurd ((hacc q hcq x hs).2 hfx) hflP
        · exact Or.inr ⟨q, hq, hcq, hs, hd, hi, hco⟩

/-- C1 witness: the amended theorem applied at a concrete interruption
point satisfying its hypothesis (interruption before any work was done). -/
theorem c1_idempotent_resume_amended_witness :
    ledgerEquiv
      (runPipeline demoSrc (interruptedAt demoSrc emptyLedger ["q1"] 0)
        ["q1"])
      (runPipeline demoSrc emptyLedger ["q1"]) :=
  c1_idempotent_resume_amended demoSrc ["q1"] 0
    (fun r hr => absurd hr (List.not_mem_nil r))

/-- C2: for a Rate Limiter configured at `C` requests per second,
`acquire()` sleeps for `max 0 (interval - elapsed_since_last_acquire)`
with `interval = 1/C` before recording the completion as the new
`last_acquire`, and consequently every window `[a, a+1)` of one second
contains at most `C` completed `acquire()` calls. -/
theorem c2_rate_ceiling_respected (C : Nat) (hC : 0 < C)
    (start last : ℚ) (gaps : List ℚ) (a : ℚ) :
    windowCount (acquireTimes (1 / C) start last gaps) a ≤ C ∧
    (∀ interval lastAcq now : ℚ,
      acquireCompletion interval lastAcq now =
        now + max 0 (interval - (now - lastAcq))) :=
  ⟨windowCount_le_ceiling C hC _ (spaced_acquireTimes (1 / C) gaps start last)
     a,
   fun _ _ _ => rfl⟩

/-- C2 witness: the rate-ceiling theorem at a concrete limiter of 2
requests per second and four back-to-back calls. -/
theorem c2_rate_ceiling_respected_witness :
    windowCount (acquireTimes (1 / 2) 0 0 [0, 0, 0, 0]) 0 ≤ 2 :=
  (c2_rate_ceiling_respected 2 (by norm_num) 0 0 [0, 0, 0, 0] 0).1

/-- C3: no duplicate fetch — whenever a record `r` is already a member of
the Ledger's `downloaded_record_ids`, a run performs zero `fetch_metadata`
invocations for `r` (the Worker checks membership before fetching); and in
a full run from the empty ledger a record whose fetch succeeds is fetched
at most once. -/
theorem c3_no_duplicate_fetch (src : DataSource) (qs : List String)
    (r : String) :
    (∀ L : Ledger, r ∈ L.downloaded_record_ids →
      fetchCount r (pipelineTrace src L qs) = 0) ∧
    (src.fetchOk r = true →
      fetchCount r (pipelineTrace src emptyLedger qs) ≤ 1) := by
  constructor
  · intro L h
    exact fetchCount_pipelineTrace_zero src qs L h
  · intro hf
    have h := fetchCount_pipelineTrace_le src qs hf emptyLedger
    simpa [emptyLedger] using h

/-- C3 witness: the no-duplicate-fetch theorem at a concrete source,
resumed ledger and record. -/
theorem c3_no_duplicate_fetch_witness :
    fetchCount "r2" (pipelineTrace demoSrc
      { emptyLedger with downloaded_record_ids := ["r2"] } ["q1", "q2"]) = 0 ∧
    fetchCount "r2" (pipelineTrace demoSrc emptyLedger ["q1", "q2"]) ≤ 1 :=
  ⟨(c3_no_duplicate_fetch demoSrc ["q1", "q2"] "r2").1 _ (by decide),
   (c3_no_duplicate_fetch demoSrc ["q1", "q2"] "r2").2 (by decide)⟩

/-- C4: Ledger containment invariant — in every reachable ledger state of
a run (the state after any number `n` of the pipeline's ledger operations
`record_downloaded`/`record_indexed`/`record_failed`/`record_query_complete`),
every record of `indexed_record_ids` is also in `downloaded_record_ids`. -/
theorem c4_indexed_subset_downloaded (src : DataSource) (qs : List String)
    (n : Nat) :
    ∀ r, r ∈ (interruptedAt src emptyLedger qs n).indexed_record_ids →
      r ∈ (interruptedAt src emptyLedger qs n).downloaded_record_ids :=
  fun r h => (interrupted_invs src qs n).1.1 r h

/-- C4 witness: the containment theorem at a concrete reachable state in
which `r1` has just been indexed. -/
theorem c4_indexed_subset_downloaded_witness :
    "r1" ∈ (interruptedAt demoSrc emptyLedger ["q1"] 3).downloaded_record_ids :=
  c4_indexed_subset_downloaded demoSrc ["q1"] 3 "r1" (by decide)

/-- C5 counterexample: the claim as stated — every query is added to
`completed_queries` only after all records of its search are terminal —
is false on a reachable resumed state.  Resuming from the run of `q1`
interrupted after 2 ledger operations (just after `record_downloaded r1`),
`q1` is not yet complete and gets marked complete by applying
`record_query_complete q1` to the state reached after processing its
records; at that moment `r1 ∈ search q1` is in neither
`indexed_record_ids` nor `failed_record_ids` (it was skipped as
already-downloaded and never indexed). -/
theorem c5_query_completion_counterexample :
    "q1" ∉ (interruptedAt demoSrc emptyLedger ["q1"] 2).completed_queries ∧
    runQuery demoSrc (interruptedAt demoSrc emptyLedger ["q1"] 2) "q1" =
      applyOp (runRecords demoSrc (interruptedAt demoSrc emptyLedger ["q1"] 2)
          (demoSrc.search "q1")) (Op.record_query_complete "q1") ∧
    "r1" ∈ demoSrc.search "q1" ∧
    ¬(∀ r, r ∈ demoSrc.search "q1" →
        r ∈ (runRecords demoSrc (interruptedAt demoSrc emptyLedger ["q1"] 2)
              (demoSrc.search "q1")).indexed_record_ids ∨
        r ∈ (runRecords demoSrc (interruptedAt demoSrc emptyLedger ["q1"] 2)
              (demoSrc.search "q1")).failed_record_ids) := by
  refine ⟨by decide, by decide, by decide, fun h => ?_⟩
  exact absurd (h "r1" (by decide)) (by decide)

/-- C5 (amended): query-completion invariant for runs whose starting
ledger has every downloaded record already terminal (in particular the
empty initial ledger, and any interruption state at a record or query
boundary) — a query `q` still unprocessed after the preceding queries is
marked complete by applying `record_query_complete q` to the state reached
after processing all of `q`'s records, and at that moment every record
returned by `q`'s search is terminal: a member of `indexed_record_ids` or
of `failed_record_ids`.  Resuming from an interruption that left a record
downloaded but not terminal violates the invariant for that record's
query (see the counterexample). -/
theorem c5_query_completion_after_terminal (src : DataSource) (L : Ledger)
    (qs1 : List String) (q : String)
    (hstart : ∀ x, x ∈ L.downloaded_record_ids →
      x ∈ L.indexed_record_ids ∨ x ∈ L.failed_record_ids)
    (hq : q ∉ (runPipeline src L qs1).completed_queries) :
    runQuery src (runPipeline src L qs1) q =
      applyOp (runRecords src (runPipeline src L qs1) (src.search q))
        (Op.record_query_complete q) ∧
    ∀ r, r ∈ src.search q →
      r ∈ (runRecords src (runPipeline src L qs1)
            (src.search q)).indexed_record_ids ∨
      r ∈ (runRecords src (runPipeline src L qs1)
            (src.search q)).failed_record_ids :=
  ⟨runQuery_proc src hq,
   fun _ hr => record_terminal_runRecords src
     (dl_terminal_runPipeline src qs1 hstart) hr⟩

/-- C5 witness: the query-completion theorem at a concrete run in which
`q2` completes after `q1`. -/
theorem c5_query_completion_after_terminal_witness :
    runQuery demoSrc (runPipeline demoSrc emptyLedger ["q1"]) "q2" =
      applyOp (runRecords demoSrc (runPipeline demoSrc emptyLedger ["q1"])
          (demoSrc.search "q2")) (Op.record_query_complete "q2") ∧
    ∀ r, r ∈ demoSrc.search "q2" →
      r ∈ (runRecords demoSrc (runPipeline demoSrc emptyLedger ["q1"])
            (demoSrc.search "q2")).indexed_record_ids ∨
      r ∈ (runRecords demoSrc (runPipeline demoSrc emptyLedger ["q1"])
            (demoSrc.search "q2")).failed_record_ids :=
  c5_query_completion_after_terminal demoSrc emptyLedger ["q1"] "q2"
    (fun x hx => absurd hx (List.not_mem_nil x))
    (by decide)

/-- C6: round-robin fairness — the query at position `i` is assigned
credential `i mod K`, the assignment is a fixed function of the position,
and with `Q` queries and `K` credentials each credential receives exactly
`floor (Q/K)` or `ceil (Q/K)` queries, any two credentials differing by at
most 1. -/
theorem c6_round_robin_fairness (Q K k : Nat) (hK : 0 < K) (hk : k < K) :
    (∀ i : Nat, assignedCredential i K = i % K) ∧
    (assignedCount Q K k = Q / K ∨
      assignedCount Q K k = (Q + K - 1) / K) ∧
    (∀ j, j < K → assignedCount Q K k ≤ assignedCount Q K j + 1) := by
  refine ⟨fun i => rfl, ?_, ?_⟩
  · rw [assignedCount_eq Q K k hK hk]
    by_cases h : k < Q % K
    · right
      rw [if_pos h, ceil_div_of_mod_pos Q K hK (by omega)]
    · left
      rw [if_neg h]
      omega
  · intro j hj
    rw [assignedCount_eq Q K k hK hk, assignedCount_eq Q K j hK hj]
    split <;> split <;> omega

/-- C6 witness: the fairness theorem at 7 queries over 2 credentials. -/
theorem c6_round_robin_fairness_witness :
    (∀ i : Nat, assignedCredential i 2 = i % 2) ∧
    (assignedCount 7 2 1 = 7 / 2 ∨ assignedCount 7 2 1 = (7 + 2 - 1) / 2) ∧
    (∀ j, j < 2 → assignedCount 7 2 1 ≤ assignedCount 7 2 j + 1) :=
  c6_round_robin_fairness 7 2 1 (by norm_num) (by norm_num)

/-- C7: chunk determinism — `chunk` is a pure function of the assembled
document: invoking it twice on an unchanged document yields identical
output, and any two documents with the same content yield the same number
of chunks with the same texts in the same order. -/
theorem c7_chunk_deterministic (d d2 : AssembledDocument)
    (h : d.content = d2.content) :
    chunk d = chunk d ∧
    (chunk d).length = (chunk d2).length ∧
    (chunk d).map Chunk.text = (chunk d2).map Chunk.text := by
  refine ⟨rfl, ?_, ?_⟩
  · simp [chunk, h]
  · simp [chunk, h]

/-- C7 witness: the determinism theorem at a concrete document (the second
document differs only in metadata, not content). -/
theorem c7_chunk_deterministic_witness :
    chunk ⟨"r", "abc", "q", false⟩ = chunk ⟨"r", "abc", "q", false⟩ ∧
    (chunk ⟨"r", "abc", "q", false⟩).length =
      (chunk ⟨"r", "abc", "q2", true⟩).length ∧
    (chunk ⟨"r", "abc", "q", false⟩).map Chunk.text =
      (chunk ⟨"r", "abc", "q2", true⟩).map Chunk.text :=
  c7_chunk_deterministic _ _ rfl

/-- C8: full-text failure isolation — a record whose full-text retrieval
fails (the retriever returns `none`) but whose metadata fetch and index
write succeed is still indexed and is not added to `failed_record_ids`,
and the document assembled for it is abstract-only with
`has_full_text = false`. -/
theorem c8_full_text_failure_isolation (src : DataSource) (L : Ledger)
    (q r : String)
    (hft : maybe_fetch_full_text src (src.metadataOf r) = none)
    (hnew : ¬(r ∈ L.downloaded_record_ids ∨ r ∈ L.indexed_record_ids))
    (hf : src.fetchOk r = true) (hidx : src.indexOk r = true)
    (hnf : r ∉ L.failed_record_ids) :
    r ∈ (runRecord src L r).indexed_record_ids ∧
    r ∉ (runRecord src L r).failed_record_ids ∧
    (indexedDocFor src q r).has_full_text = false ∧
    (indexedDocFor src q r).content =
      (src.metadataOf r).title ++ "\n" ++ (src.metadataOf r).abstract := by
  rw [runRecord_ok src hnew hf hidx]
  refine ⟨mem_insertS_self, hnf, ?_, ?_⟩
  · unfold indexedDocFor assemble
    rw [hft]
    rfl
  · unfold indexedDocFor assemble
    rw [hft]
    simp

/-- C8 witness: the failure-isolation theorem at the concrete record `r2`,
whose full-text id is present but whose retrieval fails. -/
theorem c8_full_text_failure_isolation_witness :
    "r2" ∈ (runRecord demoSrc emptyLedger "r2").indexed_record_ids ∧
    "r2" ∉ (runRecord demoSrc emptyLedger "r2").failed_record_ids ∧
    (indexedDocFor demoSrc "q1" "r2").has_full_text = false ∧
    (indexedDocFor demoSrc "q1" "r2").content =
      (demoSrc.metadataOf "r2").title ++ "\n" ++
        (demoSrc.metadataOf "r2").abstract :=
  c8_full_text_failure_isolation demoSrc emptyLedger "q1" "r2"
    (by decide) (by decide) (by decide) (by decide) (by decide)

/-- C9: for every response through the shared axios client, a 401 error
makes the response interceptor remove the `token` and `user` localStorage
entries and redirect to `/`; any non-401 error leaves the browser state
unchanged; in every case the error is rejected back to the caller
unchanged; and fulfilled responses pass through unchanged. -/
theorem c9_axios_response_interceptor (s : Frontend.BrowserState)
    (e : Frontend.AxiosError) {Response : Type} (resp : Response) :
    (e.responseStatus = some 401 →
      Frontend.interceptorRejected s e =
        ({ token := none, user := none, href := "/" }, Except.error e)) ∧
    (e.responseStatus ≠ some 401 →
      Frontend.interceptorRejected s e = (s, Except.error e)) ∧
    (Frontend.interceptorRejected s e).2 = Except.error e ∧
    Frontend.interceptorFulfilled resp = resp := by
  refine ⟨fun h => ?_, fun h => ?_, ?_, rfl⟩
  · unfold Frontend.interceptorRejected
    rw [if_pos h]
  · unfold Frontend.interceptorRejected
    rw [if_neg h]
  · unfold Frontend.interceptorRejected
    split <;> rfl

/-- C9 witness: the interceptor theorem at a concrete 401 error (state
cleared, redirect) and a concrete 404 error (state untouched). -/
theorem c9_axios_response_interceptor_witness :
    Frontend.interceptorRejected ⟨some "t", some "u", "/chat"⟩ ⟨some 401⟩ =
      (⟨none, none, "/"⟩, Except.error ⟨some 401⟩) ∧
    Frontend.interceptorRejected ⟨some "t", some "u", "/chat"⟩ ⟨some 404⟩ =
      (⟨some "t", some "u", "/chat"⟩, Except.error ⟨some 404⟩) :=
  ⟨(c9_axios_response_interceptor ⟨some "t", some "u", "/chat"⟩ ⟨some 401⟩
      (0 : Nat)).1 rfl,
   (c9_axios_response_interceptor ⟨some "t", some "u", "/chat"⟩ ⟨some 404⟩
      (0 : Nat)).2.1 (by decide)⟩

/-- C10: the credential-pool setup script exports exactly the ten
environment variables `PUBMED_API_KEY_1..5` and `PUBMED_EMAIL_1..5` — five
credential pairs, no more and no fewer. -/
theorem c10_setup_api_keys_five_pairs :
    Scripts.setup_api_keys_exports =
      ["PUBMED_API_KEY_1", "PUBMED_EMAIL_1",
       "PUBMED_API_KEY_2", "PUBMED_EMAIL_2",
       "PUBMED_API_KEY_3", "PUBMED_EMAIL_3",
       "PUBMED_API_KEY_4", "PUBMED_EMAIL_4",
       "PUBMED_API_KEY_5", "PUBMED_EMAIL_5"] ∧
    Scripts.setup_api_keys_exports.length = 10 := by
  constructor
  · decide
  · decide
